import Mathlib

/-! Verification of the listener-rule logic of the `awspresence` Terraform
provider resource `resource_aws_lb_listener_rule.go`: a shallow embedding
of its condition flatten/expand conversions, condition-set hash, the
listener-ARN derivation from a rule ARN, the priority-allocation retry
loop of Create, and its small validators, together with theorems about
them.  Go pointers become `Option`, fallible functions return `Except`,
machine integers become `Int` with explicit range checks where the source
checks them, and external effects (the AWS API, the retry clock) are
passed in as explicit response lists and an attempt budget. -/

namespace AwsPresence


/-- Errors as seen by the provider: an AWS API error with its code, or any
other error with a message. -/
inductive Err where
  | aws (code : String)
  | other (msg : String)
deriving DecidableEq, Repr

/-- Modelled from the spec: helper `isAWSErr` (declared elsewhere in this
repository, not among the provided sources) reports whether an error is an
AWS API error with the given code; all call sites here pass an empty
required-message substring, so only the code comparison remains. -/
def isAWSErr (e : Err) (code : String) : Bool :=
  match e with
  | .aws c => c = code
  | .other _ => false

/-- Constant `elbv2.ErrCodePriorityInUseException` of the AWS SDK. -/
def errCodePriorityInUseException : String := "PriorityInUseException"

/-- Constant `elbv2.ErrCodeRuleNotFoundException` of the AWS SDK. -/
def errCodeRuleNotFoundException : String := "RuleNotFoundException"

/-- Model of `aws.StringValue`: dereference a string pointer, `nil` becoming `""`. -/
def stringValue (s : Option String) : String := s.getD ""

/-- Decimal value of a digit run; `none` if empty or a non-digit occurs.
Inner loop of the model of Go `strconv.Atoi`. -/
def parseDigitsAux (acc : Nat) : List Char → Option Nat
  | [] => some acc
  | c :: cs =>
      if '0' ≤ c ∧ c ≤ '9' then parseDigitsAux (acc * 10 + (c.toNat - '0'.toNat)) cs
      else none

/-- Decimal value of a nonempty digit string, else `none`. -/
def parseDigits : List Char → Option Nat
  | [] => none
  | c :: cs => parseDigitsAux 0 (c :: cs)

/-- Model of Go `strconv.Atoi` (= `strconv.ParseInt(s, 10, 64)` here): an
optional sign, then a nonempty run of decimal digits, with the result
required to fit a signed 64-bit integer.  Any failure (empty input, stray
character, overflow) is `none`; the Go pair `(value, err)` with `err ≠ nil`
is collapsed to `none` since every caller in the source either aborts on
the error or (in `highestListenerRulePriority`) discards the pair only for
syntactically valid priorities. -/
def goAtoi (s : String) : Option Int :=
  match s.data with
  | [] => none
  | c :: rest =>
      let signed : Bool × List Char :=
        if c = '-' then (true, rest)
        else if c = '+' then (false, rest)
        else (false, c :: rest)
      match parseDigits signed.2 with
      | none => none
      | some n =>
          let v : Int := if signed.1 then -(n : Int) else (n : Int)
          if -(2 ^ 63) ≤ v ∧ v ≤ 2 ^ 63 - 1 then some v else none

/-- Go `p, _ := strconv.Atoi(s)`: the parse with the error discarded; on a
parse failure Go returns `0`. -/
def atoiDiscard (s : String) : Int := (goAtoi s).getD 0

/-- Model of `validateAwsLbListenerRulePriority`: returns the list of validation
errors (here, their messages) for a configured priority value. -/
def validateAwsLbListenerRulePriority (value : Int) : List String :=
  if value < 1 ∨ (value > 50000 ∧ value ≠ 99999) then
    ["priority must be in the range 1-50000 for normal rule or 99999 for default rule"]
  else []

/-- Model of `resourceAwsLbListenerRuleDelete`, given the outcome of the one
`DeleteRule` call it makes: any `RuleNotFoundException` failure is
swallowed, any other failure is wrapped and returned. -/
def resourceAwsLbListenerRuleDelete (deleteRuleResult : Except Err Unit) :
    Except String Unit :=
  match deleteRuleResult with
  | .ok _ => .ok ()
  | .error e =>
      if isAWSErr e errCodeRuleNotFoundException then .ok ()
      else .error "Error deleting LB Listener Rule"

/-- The priority-decoding step of `resourceAwsLbListenerRuleRead`: the
API reports the priority as a string; `"default"` is stored as `99999`,
anything else must parse as an integer or the read fails. -/
def readPriorityDecode (s : String) : Except String Int :=
  if s = "default" then .ok 99999
  else
    match goAtoi s with
    | some n => .ok n
    | none => .error "Cannot convert rule priority to int"

/-! Section: AWS SDK (`elbv2`) condition structs.

Only the condition-related structs are needed; Go pointer fields are
`Option`, `[]*string` is `List (Option String)`. -/

/-- Struct `elbv2.HostHeaderConditionConfig`. -/
structure HostHeaderConditionConfig where
  values : List (Option String)
deriving DecidableEq, Repr

/-- Struct `elbv2.HttpHeaderConditionConfig`. -/
structure HttpHeaderConditionConfig where
  httpHeaderName : Option String
  values : List (Option String)
deriving DecidableEq, Repr

/-- Struct `elbv2.HttpRequestMethodConditionConfig`. -/
structure HttpRequestMethodConditionConfig where
  values : List (Option String)
deriving DecidableEq, Repr

/-- Struct `elbv2.PathPatternConditionConfig`. -/
structure PathPatternConditionConfig where
  values : List (Option String)
deriving DecidableEq, Repr

/-- Struct `elbv2.QueryStringKeyValuePair`. -/
structure QueryStringKeyValuePair where
  key : Option String
  value : Option String
deriving DecidableEq, Repr

/-- Struct `elbv2.QueryStringConditionConfig`. -/
structure QueryStringConditionConfig where
  values : List QueryStringKeyValuePair
deriving DecidableEq, Repr

/-- Struct `elbv2.SourceIpConditionConfig`. -/
structure SourceIpConditionConfig where
  values : List (Option String)
deriving DecidableEq, Repr

/-- Struct `elbv2.RuleCondition`. -/
structure RuleCondition where
  field : Option String
  values : List (Option String)
  hostHeaderConfig : Option HostHeaderConditionConfig
  httpHeaderConfig : Option HttpHeaderConditionConfig
  httpRequestMethodConfig : Option HttpRequestMethodConditionConfig
  pathPatternConfig : Option PathPatternConditionConfig
  queryStringConfig : Option QueryStringConditionConfig
  sourceIpConfig : Option SourceIpConditionConfig
deriving DecidableEq, Repr

/-! Section: Terraform-side condition maps.

A `condition` block as the schema layer hands it to the provider: a
`map[string]interface{}` whose keys are fixed by the schema.  Each nested
block is a `[]interface{}` whose single element may be `nil` during diff
computation (the hash function nil-checks them), hence
`List (Option _)`.  `extra` stands for any further keys such a map could
carry; no function below ever reads it. -/

/-- A `{ values = [...] }` block (`host_header`, `http_request_method`,
`path_pattern`, `source_ip`). -/
structure ValuesBlock where
  values : List String
deriving DecidableEq, Repr

/-- An `http_header` block. -/
structure HttpHeaderBlock where
  httpHeaderName : String
  values : List String
deriving DecidableEq, Repr

/-- One `{ key, value }` element of a `query_string` block. -/
structure QSPair where
  key : String
  value : String
deriving DecidableEq, Repr

/-- A `query_string` block. -/
structure QueryStringBlock where
  values : List QSPair
deriving DecidableEq, Repr

/-- A `condition` map as seen by `lbListenerRuleConditionSetHash` and
`lbListenerRuleConditions`. -/
structure ConditionMap where
  field : String
  values : List String
  host_header : List (Option ValuesBlock)
  http_header : List (Option HttpHeaderBlock)
  http_request_method : List (Option ValuesBlock)
  path_pattern : List (Option ValuesBlock)
  query_string : List (Option QueryStringBlock)
  source_ip : List (Option ValuesBlock)
  extra : List (String × String)
deriving DecidableEq, Repr

/-- The all-empty condition map (schema zero values for every key). -/
def emptyConditionMap : ConditionMap :=
  ⟨"", [], [], [], [], [], [], [], []⟩

/-! Section: flatten, the condition loop of `resourceAwsLbListenerRuleRead`.

Lines 894-958 of the source: build the state map for one
`elbv2.RuleCondition` returned by `DescribeRules`. -/

/-- The condition map `resourceAwsLbListenerRuleRead` stores in state for
one API condition: `field` and the deprecated top-level `values` are
always set; each typed block is set exactly when the corresponding config
is non-nil. -/
def flattenCondition (c : RuleCondition) : ConditionMap where
  field := stringValue c.field
  values := c.values.map stringValue
  host_header :=
    match c.hostHeaderConfig with
    | some cfg => [some ⟨cfg.values.map stringValue⟩]
    | none => []
  http_header :=
    match c.httpHeaderConfig with
    | some cfg => [some ⟨stringValue cfg.httpHeaderName, cfg.values.map stringValue⟩]
    | none => []
  http_request_method :=
    match c.httpRequestMethodConfig with
    | some cfg => [some ⟨cfg.values.map stringValue⟩]
    | none => []
  path_pattern :=
    match c.pathPatternConfig with
    | some cfg => [some ⟨cfg.values.map stringValue⟩]
    | none => []
  query_string :=
    match c.queryStringConfig with
    | some cfg =>
        [some ⟨cfg.values.map (fun p => ⟨stringValue p.key, stringValue p.value⟩)⟩]
    | none => []
  source_ip :=
    match c.sourceIpConfig with
    | some cfg => [some ⟨cfg.values.map stringValue⟩]
    | none => []
  extra := []

/-! Section: expand, `lbListenerRuleConditions`. -/

/-- Failures of the expand direction: the `errors.New` validation returns
of `lbListenerRuleConditions`, plus the type-assertion panic Go would hit
on a nil block element (the source indexes `block[0]` without the nil
check that the hash function performs). -/
inductive ExpandErr where
  | validation (msg : String)
  | nilBlockEntry
deriving DecidableEq, Repr

/-- Modelled from the spec: helper `interfaceStringSlice` (declared
elsewhere in this repository, not among the provided sources) converts the
schema untyped list of strings into the AWS SDK type of string-pointer lists. -/
def interfaceStringSlice (values : List String) : List (Option String) :=
  values.map some

/-- One iteration of the loop in `lbListenerRuleConditions`: convert one
condition map into an `elbv2.RuleCondition`. -/
def expandCondition (m : ConditionMap) : Except ExpandErr RuleCondition :=
  let base : RuleCondition := ⟨some m.field, [], none, none, none, none, none, none⟩
  if m.field = "host-header" then
    match m.host_header with
    | b :: _ =>
        match b with
        | some blk => .ok { base with hostHeaderConfig := some ⟨interfaceStringSlice blk.values⟩ }
        | none => .error .nilBlockEntry
    | [] =>
        if m.values.length > 0 then
          .ok { base with hostHeaderConfig := some ⟨interfaceStringSlice m.values⟩ }
        else .error (.validation "host_header must be set when condition field is host-header")
  else if m.field = "http-header" then
    match m.http_header with
    | [] => .error (.validation "http_header must be set when condition field is http-header")
    | b :: _ =>
        match b with
        | some blk =>
            .ok { base with
                  httpHeaderConfig :=
                    some ⟨some blk.httpHeaderName, interfaceStringSlice blk.values⟩ }
        | none => .error .nilBlockEntry
  else if m.field = "http-request-method" then
    match m.http_request_method with
    | [] => .error (.validation "http_request_method must be set when condition field is http-request-method")
    | b :: _ =>
        match b with
        | some blk =>
            .ok { base with httpRequestMethodConfig := some ⟨interfaceStringSlice blk.values⟩ }
        | none => .error .nilBlockEntry
  else if m.field = "path-pattern" then
    match m.path_pattern with
    | b :: _ =>
        match b with
        | some blk => .ok { base with pathPatternConfig := some ⟨interfaceStringSlice blk.values⟩ }
        | none => .error .nilBlockEntry
    | [] =>
        if m.values.length > 0 then
          .ok { base with pathPatternConfig := some ⟨interfaceStringSlice m.values⟩ }
        else .error (.validation "path_pattern must be set when condition field is path-pattern")
  else if m.field = "query-string" then
    match m.query_string with
    | [] => .error (.validation "query_string must be set when condition field is query-string")
    | b :: _ =>
        match b with
        | some blk =>
            .ok { base with
                  queryStringConfig :=
                    some ⟨blk.values.map (fun p =>
                      ⟨if p.key ≠ "" then some p.key else none, some p.value⟩)⟩ }
        | none => .error .nilBlockEntry
  else if m.field = "source-ip" then
    match m.source_ip with
    | [] => .error (.validation "source_ip must be set when condition field is source-ip")
    | b :: _ =>
        match b with
        | some blk => .ok { base with sourceIpConfig := some ⟨interfaceStringSlice blk.values⟩ }
        | none => .error .nilBlockEntry
  else .ok base

/-- Model of `lbListenerRuleConditions`: convert the whole list, returning the
first failing condition conversion as the overall error. -/
def lbListenerRuleConditions : List ConditionMap → Except ExpandErr (List RuleCondition)
  | [] => .ok []
  | m :: rest =>
    match expandCondition m with
    | .error e => .error e
    | .ok c =>
        match lbListenerRuleConditions rest with
        | .error e => .error e
        | .ok cs => .ok (c :: cs)

/-! Section: the condition set hash `lbListenerRuleConditionSetHash`.

The Go function writes pieces of the condition into a `strings.Builder`
and feeds the resulting string to `hashcode.String` (an external helper
of the Terraform SDK, a pure function of the string); the hash function
is abstracted as a parameter here, so the theorems hold for the real one
in particular. -/

/-- Effect of `fmt.Fprint(&buf, l, "-")` over a list of values. -/
def bufAppend (vals : List String) : String :=
  String.join (vals.map (fun v => v ++ "-"))

/-- The exact string `lbListenerRuleConditionSetHash` builds in its
`strings.Builder` before hashing, with the six sequential source
`if m["field"] == ...` blocks. -/
def lbListenerRuleConditionSetHashStr (m : ConditionMap) : String :=
  let b0 := m.field ++ "-"
  let bHost :=
    if m.field = "host-header" then
      match m.host_header with
      | b :: _ =>
          match b with
          | some blk => bufAppend blk.values
          | none => ""
      | [] => bufAppend m.values
    else ""
  let bHttp :=
    if m.field = "http-header" then
      match m.http_header with
      | some blk :: _ => blk.httpHeaderName ++ "-" ++ bufAppend blk.values
      | _ => ""
    else ""
  let bMethod :=
    if m.field = "http-request-method" then
      match m.http_request_method with
      | some blk :: _ => bufAppend blk.values
      | _ => ""
    else ""
  let bPath :=
    if m.field = "path-pattern" then
      match m.path_pattern with
      | b :: _ =>
          match b with
          | some blk => bufAppend blk.values
          | none => ""
      | [] => bufAppend m.values
    else ""
  let bQuery :=
    if m.field = "query-string" then
      match m.query_string with
      | some blk :: _ => String.join (blk.values.map (fun p => p.key ++ "-" ++ p.value ++ "-"))
      | _ => ""
    else ""
  let bSource :=
    if m.field = "source-ip" then
      match m.source_ip with
      | some blk :: _ => bufAppend blk.values
      | _ => ""
    else ""
  b0 ++ bHost ++ bHttp ++ bMethod ++ bPath ++ bQuery ++ bSource

/-- Model of `lbListenerRuleConditionSetHash`, parameterized by the external
`hashcode.String`. -/
def lbListenerRuleConditionSetHash (hashcode : String → Int) (m : ConditionMap) : Int :=
  hashcode (lbListenerRuleConditionSetHashStr m)

/-- The data the hash actually reads from a condition map once its
`field` is known: the effective value list for `host-header` and
`path-pattern` (block values, or the deprecated `values` on an empty
block), the header name and values for `http-header`, the key/value
pairs for `query-string`, the values for the remaining two fields, and
nothing at all for any other `field`. -/
inductive HashSel where
  | host (vs : List String)
  | http (o : Option (String × List String))
  | reqMethod (o : Option (List String))
  | path (vs : List String)
  | query (o : Option (List (String × String)))
  | source (o : Option (List String))
  | other
deriving DecidableEq, Repr

/-- Project a condition map onto the parts its hash depends on. -/
def hashRelevant (m : ConditionMap) : String × HashSel :=
  (m.field,
   if m.field = "host-header" then
     .host (match m.host_header with
            | b :: _ =>
                match b with
                | some blk => blk.values
                | none => []
            | [] => m.values)
   else if m.field = "http-header" then
     .http (match m.http_header with
            | some blk :: _ => some (blk.httpHeaderName, blk.values)
            | _ => none)
   else if m.field = "http-request-method" then
     .reqMethod (match m.http_request_method with
                 | some blk :: _ => some blk.values
                 | _ => none)
   else if m.field = "path-pattern" then
     .path (match m.path_pattern with
            | b :: _ =>
                match b with
                | some blk => blk.values
                | none => []
            | [] => m.values)
   else if m.field = "query-string" then
     .query (match m.query_string with
             | some blk :: _ => some (blk.values.map (fun p => (p.key, p.value)))
             | _ => none)
   else if m.field = "source-ip" then
     .source (match m.source_ip with
              | some blk :: _ => some blk.values
              | _ => none)
   else .other)

/-- Rebuild the hashed string from the projection alone. -/
def hashSelBuf : String × HashSel → String
  | (f, sel) =>
    f ++ "-" ++
    (match sel with
     | .host vs => bufAppend vs
     | .http o =>
         match o with
         | some (n, vs) => n ++ "-" ++ bufAppend vs
         | none => ""
     | .reqMethod o =>
         match o with
         | some vs => bufAppend vs
         | none => ""
     | .path vs => bufAppend vs
     | .query o =>
         match o with
         | some ps => String.join (ps.map (fun p => p.1 ++ "-" ++ p.2 ++ "-"))
         | none => ""
     | .source o =>
         match o with
         | some vs => bufAppend vs
         | none => ""
     | .other => "")

def hostHeaderOldStyle (vs : List String) : ConditionMap :=
  { emptyConditionMap with field := "host-header", values := vs }

def hostHeaderNewStyle (vs vsDeprecated : List String) : ConditionMap :=
  { emptyConditionMap with field := "host-header", values := vsDeprecated, host_header := [some ⟨vs⟩] }

def pathPatternOldStyle (vs : List String) : ConditionMap :=
  { emptyConditionMap with field := "path-pattern", values := vs }

def pathPatternNewStyle (vs vsDeprecated : List String) : ConditionMap :=
  { emptyConditionMap with field := "path-pattern", values := vsDeprecated, path_pattern := [some ⟨vs⟩] }

def noNilHeads (m : ConditionMap) : Bool :=
  m.host_header.all Option.isSome && m.http_header.all Option.isSome &&
  m.http_request_method.all Option.isSome && m.path_pattern.all Option.isSome &&
  m.query_string.all Option.isSome && m.source_ip.all Option.isSome

def BadCondition (m : ConditionMap) : Prop :=
  (m.field = "host-header" ∧ m.host_header = [] ∧ m.values = []) ∨
  (m.field = "http-header" ∧ m.http_header = []) ∨
  (m.field = "http-request-method" ∧ m.http_request_method = []) ∨
  (m.field = "path-pattern" ∧ m.path_pattern = [] ∧ m.values = []) ∨
  (m.field = "query-string" ∧ m.query_string = []) ∨
  (m.field = "source-ip" ∧ m.source_ip = [])

instance (m : ConditionMap) : Decidable (BadCondition m) := by
  unfold BadCondition
  infer_instance

def optKeyNorm (k : Option String) : Option String :=
  match k with
  | some s => if s = "" then none else some s
  | none => none

def RoundTripPre (c : RuleCondition) : Prop :=
  (c.field = some "host-header" ∧
    ∃ cfg, c.hostHeaderConfig = some cfg ∧ cfg.values.all Option.isSome = true) ∨
  (c.field = some "http-header" ∧
    ∃ cfg, c.httpHeaderConfig = some cfg ∧ cfg.httpHeaderName.isSome = true ∧
      cfg.values.all Option.isSome = true) ∨
  (c.field = some "http-request-method" ∧
    ∃ cfg, c.httpRequestMethodConfig = some cfg ∧ cfg.values.all Option.isSome = true) ∨
  (c.field = some "path-pattern" ∧
    ∃ cfg, c.pathPatternConfig = some cfg ∧ cfg.values.all Option.isSome = true) ∨
  (c.field = some "query-string" ∧
    ∃ cfg, c.queryStringConfig = some cfg ∧
      cfg.values.all (fun p => p.value.isSome) = true) ∨
  (c.field = some "source-ip" ∧
    ∃ cfg, c.sourceIpConfig = some cfg ∧ cfg.values.all Option.isSome = true)

def SameSelectedValues (c cOut : RuleCondition) : Prop :=
  (c.field = some "host-header" →
    ∃ cfg cfgOut, c.hostHeaderConfig = some cfg ∧ cOut.hostHeaderConfig = some cfgOut ∧
      cfgOut.values = cfg.values) ∧
  (c.field = some "http-header" →
    ∃ cfg cfgOut, c.httpHeaderConfig = some cfg ∧ cOut.httpHeaderConfig = some cfgOut ∧
      cfgOut.httpHeaderName = cfg.httpHeaderName ∧ cfgOut.values = cfg.values) ∧
  (c.field = some "http-request-method" →
    ∃ cfg cfgOut, c.httpRequestMethodConfig = some cfg ∧
      cOut.httpRequestMethodConfig = some cfgOut ∧ cfgOut.values = cfg.values) ∧
  (c.field = some "path-pattern" →
    ∃ cfg cfgOut, c.pathPatternConfig = some cfg ∧ cOut.pathPatternConfig = some cfgOut ∧
      cfgOut.values = cfg.values) ∧
  (c.field = some "query-string" →
    ∃ cfg cfgOut, c.queryStringConfig = some cfg ∧ cOut.queryStringConfig = some cfgOut ∧
      cfgOut.values = cfg.values.map (fun p => ⟨optKeyNorm p.key, p.value⟩)) ∧
  (c.field = some "source-ip" →
    ∃ cfg cfgOut, c.sourceIpConfig = some cfg ∧ cOut.sourceIpConfig = some cfgOut ∧
      cfgOut.values = cfg.values)

structure RuleSummary where
  priority : Option String
deriving DecidableEq, Repr

structure DescribePage where
  rules : List RuleSummary
  nextMarker : Option String
deriving DecidableEq, Repr

structure CreateOut where
  ruleArn : String
deriving DecidableEq, Repr

def collectPriorities : List (Except Err DescribePage) → Except Err (List Int)
  | [] => .error (.other "no DescribeRules response")
  | (.error e) :: _ => .error e
  | (.ok p) :: rest =>
      let ps := (p.rules.filter (fun r => stringValue r.priority ≠ "default")).map
        (fun r => atoiDiscard (stringValue r.priority))
      match p.nextMarker with
      | none => .ok ps
      | some _ => (collectPriorities rest).map (fun qs => ps ++ qs)

def highestListenerRulePriority (resps : List (Except Err DescribePage)) : Except Err Int :=
  (collectPriorities resps).map (fun priorities =>
    if priorities.length = 0 then 0
    else (List.insertionSort (· ≤ ·) priorities).getLastD 0)

def createRetryLoop (resps : List (Except Err DescribePage)) :
    List (Except Err CreateOut) → Nat → (Except Err CreateOut) × List Int
  | _, 0 => (.error (.other "timeout while waiting for rule creation"), [])
  | creates, fuel + 1 =>
      match highestListenerRulePriority resps with
      | .error e => (.error e, [])
      | .ok priority =>
          match creates with
          | [] => (.error (.other "no CreateRule response"), [])
          | c :: rest =>
              match c with
              | .ok out => (.ok out, [priority + 1])
              | .error e =>
                  if isAWSErr e errCodePriorityInUseException then
                    let r := createRetryLoop resps rest fuel
                    (r.1, (priority + 1) :: r.2)
                  else (.error e, [priority + 1])

def leadingPIU : List (Except Err CreateOut) → Nat
  | (.error e) :: rest =>
      if isAWSErr e errCodePriorityInUseException then leadingPIU rest + 1 else 0
  | _ => 0

def listMaxD : List Int → Int
  | [] => 0
  | x :: xs => xs.foldl max x

def litArn : List Char := ['a', 'r', 'n', ':']

def litListener : List Char := [':', 'l', 'i', 's', 't', 'e', 'n', 'e', 'r']

def litMid : List Char := litListener ++ ['-', 'r', 'u', 'l', 'e', '/']

def splits : List Char → List (List Char × List Char)
  | [] => [([], [])]
  | c :: rest => ([], c :: rest) :: (splits rest).map (fun p => (c :: p.1, p.2))

def lastSlashSplit : List Char → Option (List Char × List Char)
  | [] => none
  | c :: rest =>
      match lastSlashSplit rest with
      | some (b, a) => some (c :: b, a)
      | none => if c = '/' then some ([], rest) else none

def tailMatch (t : List Char) : Option (List Char × List Char) :=
  match lastSlashSplit t with
  | some (b, a) =>
      if b ≠ [] ∧ a ≠ [] ∧ '\n' ∉ b then some (b, a) else none
  | none => none

def checkCand (p : List Char × List Char) : Option (List Char × List Char × List Char) :=
  if p.1 ≠ [] ∧ '\n' ∉ p.1 ∧ litMid.isPrefixOf p.2 then
    match tailMatch (p.2.drop litMid.length) with
    | some (b, c) => some (p.1, b, c)
    | none => none
  else none

def ruleArnSubmatch (l : List Char) : Option (List Char × List Char × List Char) :=
  if litArn.isPrefixOf l then
    ((splits (l.drop litArn.length)).reverse).findSome? checkCand
  else none

/-- Model of `lbListenerARNFromRuleARN`: apply the submatch of the
anchored pattern `(arn:.+:listener)-rule(/.+)/[^/]+` and, on a match,
return the concatenation of the two capture groups; otherwise return
the empty string. -/
def lbListenerARNFromRuleARN (s : String) : String :=
  match ruleArnSubmatch s.data with
  | some (A, B, _) => String.mk (litArn ++ A ++ litListener ++ '/' :: B)
  | none => ""

/-- A decomposition of `l` as witnessed by the regular expression
`^(arn:.+:listener)-rule(/.+)/[^/]+$` of the source (`.` does not match a
newline in the Go regexp package, a negated class does). -/
def RuleArnDecomp (l A B C : List Char) : Prop :=
  l = litArn ++ A ++ litMid ++ B ++ '/' :: C ∧
  A ≠ [] ∧ B ≠ [] ∧ C ≠ [] ∧ '\n' ∉ A ∧ '\n' ∉ B ∧ '/' ∉ C

/-- Predicate: `l` matches the listener-rule-ARN pattern. -/
def RuleArnMatches (l : List Char) : Prop := ∃ A B C, RuleArnDecomp l A B C

instance (l A B C : List Char) : Decidable (RuleArnDecomp l A B C) := by
  unfold RuleArnDecomp
  infer_instance

def sampleHostHeaderCondition : RuleCondition :=
  ⟨some "host-header", [some "example.com"], some ⟨[some "example.com"]⟩,
    none, none, none, none, none⟩

def sampleDescribeResponses : List (Except Err DescribePage) :=
  [.ok ⟨[⟨some "3"⟩, ⟨some "default"⟩], none⟩]

def sampleCreateResponses : List (Except Err CreateOut) :=
  [.error (.aws "PriorityInUseException"), .ok ⟨"arn:aws:elasticloadbalancing:us-east-1:012345678912:listener-rule/app/name/1/2/3"⟩]

def sampleConditionList : List ConditionMap :=
  [⟨"http-header", [], [], [some ⟨"X-Custom", ["yes"]⟩], [], [], [], [], []⟩,
   ⟨"source-ip", [], [], [], [], [], [], [], []⟩]

/-! Section: theorems. -/

theorem string_join_nil : String.join [] = "" := rfl

theorem hashStr_eq_hashSelBuf (m : ConditionMap) :
    lbListenerRuleConditionSetHashStr m = hashSelBuf (hashRelevant m) := by
  unfold lbListenerRuleConditionSetHashStr hashRelevant hashSelBuf
  by_cases h1 : m.field = "host-header"
  · rcases hh : m.host_header with _ | ⟨b, rest⟩
    · simp [h1, hh, String.append_assoc]
    · cases b <;> simp [h1, hh, String.append_assoc, bufAppend, string_join_nil]
  by_cases h2 : m.field = "http-header"
  · rcases hh : m.http_header with _ | ⟨b, rest⟩
    · simp [h1, h2, hh, String.append_assoc]
    · cases b <;> simp [h1, h2, hh, String.append_assoc]
  by_cases h3 : m.field = "http-request-method"
  · rcases hh : m.http_request_method with _ | ⟨b, rest⟩
    · simp [h1, h2, h3, hh, String.append_assoc]
    · cases b <;> simp [h1, h2, h3, hh, String.append_assoc]
  by_cases h4 : m.field = "path-pattern"
  · rcases hh : m.path_pattern with _ | ⟨b, rest⟩
    · simp [h1, h2, h3, h4, hh, String.append_assoc]
    · cases b <;> simp [h1, h2, h3, h4, hh, String.append_assoc, bufAppend, string_join_nil]
  by_cases h5 : m.field = "query-string"
  · rcases hh : m.query_string with _ | ⟨b, rest⟩
    · simp [h1, h2, h3, h4, h5, hh, String.append_assoc]
    · cases b <;> simp [h1, h2, h3, h4, h5, hh, String.append_assoc, Function.comp_def]
  by_cases h6 : m.field = "source-ip"
  · rcases hh : m.source_ip with _ | ⟨b, rest⟩
    · simp [h1, h2, h3, h4, h5, h6, hh, String.append_assoc]
    · cases b <;> simp [h1, h2, h3, h4, h5, h6, hh, String.append_assoc]
  simp [h1, h2, h3, h4, h5, h6, String.append_assoc]

/-- Claim C5: the condition-set hash is deterministic and depends only on
the condition field together with the data of the block that field
selects (the effective value list for host-header and path-pattern with
the deprecated values fallback, the header name and values for
http-header, the key/value pairs for query-string, the values for
http-request-method and source-ip), never on any other key of the map:
two maps with equal `hashRelevant` projections hash identically under any
hash function, in particular under the external `hashcode.String`. -/
theorem c5_hash_deterministic
    (hashcode : String → Int) (m₁ m₂ : ConditionMap)
    (h : hashRelevant m₁ = hashRelevant m₂) :
    lbListenerRuleConditionSetHash hashcode m₁ = lbListenerRuleConditionSetHash hashcode m₂ := by
  unfold lbListenerRuleConditionSetHash
  rw [hashStr_eq_hashSelBuf, hashStr_eq_hashSelBuf, h]

/-- Witness for C5: two concrete host-header maps that differ in an
unread extra key and in the http-header block hash identically. -/
theorem c5_witness :
    hashRelevant ⟨"host-header", ["a"], [], [some ⟨"X", ["y"]⟩], [], [], [], [], [("junk", "1")]⟩ =
      hashRelevant ⟨"host-header", ["a"], [], [], [], [], [], [], []⟩ ∧
    lbListenerRuleConditionSetHash (fun s => (s.length : Int))
        ⟨"host-header", ["a"], [], [some ⟨"X", ["y"]⟩], [], [], [], [], [("junk", "1")]⟩ =
      lbListenerRuleConditionSetHash (fun s => (s.length : Int))
        ⟨"host-header", ["a"], [], [], [], [], [], [], []⟩ :=
  ⟨by decide, c5_hash_deterministic _ _ _ (by decide)⟩

/-- Claim C6: for any value list, the hash of a host-header (respectively
path-pattern) condition whose typed block is empty and whose deprecated
top-level values list holds the values equals the hash of a condition
whose typed block holds exactly those values, so the two representations
land in the same set bucket. -/
theorem c6_deprecated_values_same_hash
    (hashcode : String → Int) (vs vsDeprecated : List String) :
    lbListenerRuleConditionSetHash hashcode (hostHeaderOldStyle vs) =
      lbListenerRuleConditionSetHash hashcode (hostHeaderNewStyle vs vsDeprecated) ∧
    lbListenerRuleConditionSetHash hashcode (pathPatternOldStyle vs) =
      lbListenerRuleConditionSetHash hashcode (pathPatternNewStyle vs vsDeprecated) := by
  constructor <;>
    · unfold lbListenerRuleConditionSetHash
      congr 1

theorem expandCondition_err_iff (m : ConditionMap) (h : noNilHeads m = true) :
    (∃ e, expandCondition m = .error e) ↔ BadCondition m := by
  simp only [noNilHeads, Bool.and_eq_true, List.all_eq_true] at h
  obtain ⟨⟨⟨⟨⟨hhh, hht⟩, hrm⟩, hpp⟩, hqs⟩, hsi⟩ := h
  unfold expandCondition BadCondition
  by_cases h1 : m.field = "host-header"
  · rcases hh : m.host_header with _ | ⟨b, rest⟩
    · by_cases hv : m.values = []
      · simp [h1, hh, hv]
      · have : m.values.length > 0 := by
          cases hv2 : m.values with
          | nil => exact absurd hv2 hv
          | cons x xs => simp [hv2]
        simp [h1, hh, hv, this]
    · have hb : b.isSome := hhh b (by rw [hh]; exact List.mem_cons_self _ _)
      rcases b with _ | blk
      · simp at hb
      · simp [h1, hh]
  · by_cases h2 : m.field = "http-header"
    · rcases hh : m.http_header with _ | ⟨b, rest⟩
      · simp [h1, h2, hh]
      · have hb : b.isSome := hht b (by rw [hh]; exact List.mem_cons_self _ _)
        rcases b with _ | blk
        · simp at hb
        · simp [h1, h2, hh]
    · by_cases h3 : m.field = "http-request-method"
      · rcases hh : m.http_request_method with _ | ⟨b, rest⟩
        · simp [h1, h2, h3, hh]
        · have hb : b.isSome := hrm b (by rw [hh]; exact List.mem_cons_self _ _)
          rcases b with _ | blk
          · simp at hb
          · simp [h1, h2, h3, hh]
      · by_cases h4 : m.field = "path-pattern"
        · rcases hh : m.path_pattern with _ | ⟨b, rest⟩
          · by_cases hv : m.values = []
            · simp [h1, h2, h3, h4, hh, hv]
            · have : m.values.length > 0 := by
                cases hv2 : m.values with
                | nil => exact absurd hv2 hv
                | cons x xs => simp [hv2]
              simp [h1, h2, h3, h4, hh, hv, this]
          · have hb : b.isSome := hpp b (by rw [hh]; exact List.mem_cons_self _ _)
            rcases b with _ | blk
            · simp at hb
            · simp [h1, h2, h3, h4, hh]
        · by_cases h5 : m.field = "query-string"
          · rcases hh : m.query_string with _ | ⟨b, rest⟩
            · simp [h1, h2, h3, h4, h5, hh]
            · have hb : b.isSome := hqs b (by rw [hh]; exact List.mem_cons_self _ _)
              rcases b with _ | blk
              · simp at hb
              · simp [h1, h2, h3, h4, h5, hh]
          · by_cases h6 : m.field = "source-ip"
            · rcases hh : m.source_ip with _ | ⟨b, rest⟩
              · simp [h1, h2, h3, h4, h5, h6, hh]
              · have hb : b.isSome := hsi b (by rw [hh]; exact List.mem_cons_self _ _)
                rcases b with _ | blk
                · simp at hb
                · simp [h1, h2, h3, h4, h5, h6, hh]
            · simp [h1, h2, h3, h4, h5, h6]

/-- Claim C7: on input without nil block entries (on which the Go code
would not survive its type assertions), `lbListenerRuleConditions` fails
exactly when some condition has field http-header, http-request-method,
query-string or source-ip with an empty corresponding block, or field
host-header or path-pattern with both the corresponding block and the
deprecated values list empty; otherwise it succeeds with one output
condition per input condition. -/
theorem c7_expand_raises_iff (l : List ConditionMap) (h : ∀ m ∈ l, noNilHeads m = true) :
    ((∃ e, lbListenerRuleConditions l = .error e) ↔ ∃ m ∈ l, BadCondition m) ∧
    (∀ res, lbListenerRuleConditions l = .ok res → res.length = l.length) := by
  induction l with
  | nil => simp [lbListenerRuleConditions]
  | cons m rest ih =>
    have hm : noNilHeads m = true := h m (List.mem_cons_self _ _)
    have hrest := ih (fun x hx => h x (List.mem_cons_of_mem _ hx))
    cases hec : expandCondition m with
    | error e =>
        have hbad : BadCondition m := (expandCondition_err_iff m hm).mp ⟨e, hec⟩
        constructor
        · constructor
          · intro _; exact ⟨m, List.mem_cons_self _ _, hbad⟩
          · intro _; exact ⟨e, by simp [lbListenerRuleConditions, hec]⟩
        · intro res hres
          simp [lbListenerRuleConditions, hec] at hres
    | ok c =>
        have hnotbad : ¬ BadCondition m := by
          intro hbad
          obtain ⟨e, he⟩ := (expandCondition_err_iff m hm).mpr hbad
          rw [hec] at he
          exact Except.noConfusion he
        cases hrec : lbListenerRuleConditions rest with
        | error e =>
            have : ∃ x ∈ rest, BadCondition x := hrest.1.mp ⟨e, hrec⟩
            obtain ⟨x, hx, hxbad⟩ := this
            constructor
            · constructor
              · intro _; exact ⟨x, List.mem_cons_of_mem _ hx, hxbad⟩
              · intro _; exact ⟨e, by simp [lbListenerRuleConditions, hec, hrec]⟩
            · intro res hres
              simp [lbListenerRuleConditions, hec, hrec] at hres
        | ok cs =>
            constructor
            · constructor
              · rintro ⟨e, he⟩
                simp [lbListenerRuleConditions, hec, hrec] at he
              · rintro ⟨x, hx, hxbad⟩
                rcases List.mem_cons.mp hx with rfl | hx2
                · exact absurd hxbad hnotbad
                · obtain ⟨e, he⟩ := hrest.1.mpr ⟨x, hx2, hxbad⟩
                  rw [hrec] at he
                  exact Except.noConfusion he
            · intro res hres
              have hlen : cs.length = rest.length := hrest.2 cs hrec
              simp [lbListenerRuleConditions, hec, hrec] at hres
              subst hres
              simp [hlen]

theorem allSome_map_some_stringValue (l : List (Option String))
    (h : l.all Option.isSome = true) : (l.map stringValue).map some = l := by
  induction l with
  | nil => rfl
  | cons x xs ih =>
      simp only [List.all_cons, Bool.and_eq_true] at h
      obtain ⟨hx, hxs⟩ := h
      rcases x with _ | s
      · simp at hx
      · simp [stringValue, ih hxs]

theorem some_getD_of_isSome (o : Option String) (h : o.isSome = true) :
    some (o.getD "") = o := by
  rcases o with _ | s
  · simp at h
  · simp

/-- Claim C1: for an API rule condition whose field is one of the six
supported values and whose matching typed config is present (with no nil
strings inside), flattening it as `resourceAwsLbListenerRuleRead` does
and expanding the result with `lbListenerRuleConditions` succeeds and
yields a condition with the same field and the same values; for
query-string, keys round-trip up to the normalization that flattens an
absent key to the empty string and expands an empty key back to absent. -/
theorem c1_roundtrip (c : RuleCondition) (h : RoundTripPre c) :
    ∃ cOut, lbListenerRuleConditions [flattenCondition c] = .ok [cOut] ∧
      cOut.field = c.field ∧ SameSelectedValues c cOut := by
  rcases h with ⟨hf, cfg, hcfg, hall⟩ | ⟨hf, cfg, hcfg, hname, hall⟩ |
    ⟨hf, cfg, hcfg, hall⟩ | ⟨hf, cfg, hcfg, hall⟩ | ⟨hf, cfg, hcfg, hall⟩ |
    ⟨hf, cfg, hcfg, hall⟩
  · refine ⟨⟨some "host-header", [], some ⟨cfg.values⟩, none, none, none, none, none⟩, ?_, ?_, ?_⟩
    · simp [lbListenerRuleConditions, expandCondition, flattenCondition, hf, hcfg,
        interfaceStringSlice, stringValue, allSome_map_some_stringValue cfg.values hall]
    · simp [hf]
    · refine ⟨fun _ => ⟨cfg, ⟨cfg.values⟩, hcfg, rfl, rfl⟩, ?_, ?_, ?_, ?_, ?_⟩ <;>
        · intro hbad; rw [hf] at hbad; simp at hbad
  · refine ⟨⟨some "http-header", [], none, some ⟨cfg.httpHeaderName, cfg.values⟩, none, none,
      none, none⟩, ?_, ?_, ?_⟩
    · simp [lbListenerRuleConditions, expandCondition, flattenCondition, hf, hcfg,
        interfaceStringSlice, stringValue, allSome_map_some_stringValue cfg.values hall]
      exact some_getD_of_isSome _ hname
    · simp [hf]
    · refine ⟨?_, fun _ => ⟨cfg, ⟨cfg.httpHeaderName, cfg.values⟩, hcfg, rfl, rfl, rfl⟩,
        ?_, ?_, ?_, ?_⟩ <;>
        · intro hbad; rw [hf] at hbad; simp at hbad
  · refine ⟨⟨some "http-request-method", [], none, none, some ⟨cfg.values⟩, none, none,
      none⟩, ?_, ?_, ?_⟩
    · simp [lbListenerRuleConditions, expandCondition, flattenCondition, hf, hcfg,
        interfaceStringSlice, stringValue, allSome_map_some_stringValue cfg.values hall]
    · simp [hf]
    · refine ⟨?_, ?_, fun _ => ⟨cfg, ⟨cfg.values⟩, hcfg, rfl, rfl⟩, ?_, ?_, ?_⟩ <;>
        · intro hbad; rw [hf] at hbad; simp at hbad
  · refine ⟨⟨some "path-pattern", [], none, none, none, some ⟨cfg.values⟩, none, none⟩,
      ?_, ?_, ?_⟩
    · simp [lbListenerRuleConditions, expandCondition, flattenCondition, hf, hcfg,
        interfaceStringSlice, stringValue, allSome_map_some_stringValue cfg.values hall]
    · simp [hf]
    · refine ⟨?_, ?_, ?_, fun _ => ⟨cfg, ⟨cfg.values⟩, hcfg, rfl, rfl⟩, ?_, ?_⟩ <;>
        · intro hbad; rw [hf] at hbad; simp at hbad
  · refine ⟨⟨some "query-string", [], none, none, none, none,
      some ⟨cfg.values.map (fun p => ⟨optKeyNorm p.key, p.value⟩)⟩, none⟩, ?_, ?_, ?_⟩
    · simp [lbListenerRuleConditions, expandCondition, flattenCondition, hf, hcfg,
        stringValue]
      intro a ha
      have hv : a.value.isSome = true := by
        have h2 := List.all_eq_true.mp hall a ha
        simpa using h2
      constructor
      · rcases hk : a.key with _ | k
        · simp [optKeyNorm]
        · by_cases hke : k = "" <;> simp [optKeyNorm, hke]
      · exact some_getD_of_isSome _ hv
    · simp [hf]
    · refine ⟨?_, ?_, ?_, ?_, fun _ => ⟨cfg, ⟨cfg.values.map (fun p => ⟨optKeyNorm p.key, p.value⟩)⟩,
        hcfg, rfl, rfl⟩, ?_⟩ <;>
        · intro hbad; rw [hf] at hbad; simp at hbad
  · refine ⟨⟨some "source-ip", [], none, none, none, none, none, some ⟨cfg.values⟩⟩,
      ?_, ?_, ?_⟩
    · simp [lbListenerRuleConditions, expandCondition, flattenCondition, hf, hcfg,
        interfaceStringSlice, stringValue, allSome_map_some_stringValue cfg.values hall]
    · simp [hf]
    · refine ⟨?_, ?_, ?_, ?_, ?_, fun _ => ⟨cfg, ⟨cfg.values⟩, hcfg, rfl, rfl⟩⟩ <;>
        · intro hbad; rw [hf] at hbad; simp at hbad

theorem le_foldl_max (xs : List Int) :
    ∀ a : Int, a ≤ xs.foldl max a ∧ ∀ x ∈ xs, x ≤ xs.foldl max a := by
  induction xs with
  | nil => intro a; exact ⟨le_refl a, by simp⟩
  | cons y ys ih =>
      intro a
      have h1 := (ih (max a y)).1
      refine ⟨le_trans (le_max_left a y) h1, ?_⟩
      intro x hx
      rcases List.mem_cons.mp hx with rfl | hx2
      · exact le_trans (le_max_right a x) h1
      · exact (ih (max a y)).2 x hx2

theorem foldl_max_mem (xs : List Int) :
    ∀ a : Int, xs.foldl max a = a ∨ xs.foldl max a ∈ xs := by
  induction xs with
  | nil => intro a; exact Or.inl rfl
  | cons y ys ih =>
      intro a
      rcases ih (max a y) with h | h
      · rcases max_choice a y with hm | hm
        · exact Or.inl (by rw [List.foldl_cons, h, hm])
        · refine Or.inr ?_
          rw [List.foldl_cons, h, hm]
          exact List.mem_cons_self _ _
      · exact Or.inr (List.mem_cons_of_mem _ h)

theorem le_listMaxD (l : List Int) : ∀ x ∈ l, x ≤ listMaxD l := by
  cases l with
  | nil => simp
  | cons y ys =>
      intro x hx
      rcases List.mem_cons.mp hx with rfl | hx2
      · exact (le_foldl_max ys x).1
      · exact (le_foldl_max ys y).2 x hx2

theorem listMaxD_mem (l : List Int) (h : l ≠ []) : listMaxD l ∈ l := by
  cases l with
  | nil => exact absurd rfl h
  | cons y ys =>
      rcases foldl_max_mem ys y with h2 | h2
      · rw [listMaxD, h2]; exact List.mem_cons_self _ _
      · exact List.mem_cons_of_mem _ h2

theorem getLastD_mem (l : List Int) (h : l ≠ []) : l.getLastD 0 ∈ l := by
  induction l with
  | nil => exact absurd rfl h
  | cons y ys ih =>
      cases ys with
      | nil => simp
      | cons z zs =>
          rw [List.getLastD_cons]
          have h2 := ih (by simp)
          rw [show (z :: zs).getLastD y = (z :: zs).getLastD 0 from rfl]
          exact List.mem_cons_of_mem _ h2

theorem sorted_le_getLastD (l : List Int) (hs : List.Sorted (· ≤ ·) l) :
    ∀ x ∈ l, x ≤ l.getLastD 0 := by
  induction l with
  | nil => simp
  | cons y ys ih =>
      intro x hx
      rw [List.sorted_cons] at hs
      obtain ⟨hy, hys⟩ := hs
      cases ys with
      | nil =>
          rcases List.mem_cons.mp hx with rfl | hx2
          · simp
          · simp at hx2
      | cons z zs =>
          rw [List.getLastD_cons,
            show (z :: zs).getLastD y = (z :: zs).getLastD 0 from rfl]
          rcases List.mem_cons.mp hx with rfl | hx2
          · exact le_trans (hy z (List.mem_cons_self _ _))
              (ih hys z (List.mem_cons_self _ _))
          · exact ih hys x hx2

theorem sortedLast_eq_listMaxD (l : List Int) (h : l ≠ []) :
    (List.insertionSort (· ≤ ·) l).getLastD 0 = listMaxD l := by
  have hperm := List.perm_insertionSort (· ≤ ·) l
  have hsort := List.sorted_insertionSort (· ≤ ·) l
  have hne : List.insertionSort (· ≤ ·) l ≠ [] := by
    intro h0
    exact h (List.Perm.nil_eq (h0 ▸ hperm)).symm
  apply le_antisymm
  · exact le_listMaxD l _ (hperm.mem_iff.mp (getLastD_mem _ hne))
  · exact sorted_le_getLastD _ hsort _ (hperm.mem_iff.mpr (listMaxD_mem l h))

/-- Counterexample for C3 as stated: the claim caps the create at one
retry, that is at most two `CreateRule` attempts, but with two successive
`PriorityInUseException` failures and enough budget left the code issues
a third attempt (and succeeds). -/
theorem c3_counterexample :
    ¬ ∀ (resps : List (Except Err DescribePage)) (creates : List (Except Err CreateOut))
        (fuel : Nat), ((createRetryLoop resps creates fuel).2).length ≤ 2 := by
  intro h
  exact absurd
    (h [.ok ⟨[], none⟩]
       [.error (.aws "PriorityInUseException"), .error (.aws "PriorityInUseException"),
        .ok ⟨"arn:new-rule"⟩] 5)
    (by decide)

/-- Claim C3 (amended): during Create without an explicit priority, the
create is retried while `CreateRule` keeps failing with the AWS error
code `PriorityInUseException`, up to the retry budget (the 5-minute
`resource.Retry` window, modelled as an attempt budget); the loop stops
at the first attempt whose outcome is a success or an error with any
other code, returning exactly that outcome, having issued exactly one
attempt per leading `PriorityInUseException` failure plus the final
one. -/
theorem c3_amended_thm (resps : List (Except Err DescribePage))
    (creates : List (Except Err CreateOut)) (fuel : Nat) (p : Int)
    (hh : highestListenerRulePriority resps = .ok p)
    (hfuel : leadingPIU creates < fuel)
    (hlen : leadingPIU creates < creates.length) :
    creates[leadingPIU creates]? = some ((createRetryLoop resps creates fuel).1) ∧
    ((createRetryLoop resps creates fuel).2).length = leadingPIU creates + 1 := by
  induction creates generalizing fuel with
  | nil => simp at hlen
  | cons c rest ih =>
      cases fuel with
      | zero => exact absurd hfuel (by omega)
      | succ n =>
          cases c with
          | ok out =>
              have hlp : leadingPIU (Except.ok out :: rest) = 0 := rfl
              simp [createRetryLoop, hh, hlp]
          | error e =>
              by_cases hpiu : isAWSErr e errCodePriorityInUseException
              · have hlp : leadingPIU (Except.error e :: rest) = leadingPIU rest + 1 := by
                  simp [leadingPIU, hpiu]
                rw [hlp] at hfuel hlen ⊢
                have hih := ih n (by omega) (by simpa using hlen)
                simp only [createRetryLoop, hh, hpiu, if_true, List.getElem?_cons_succ,
                  List.length_cons]
                exact ⟨hih.1, by simp [hih.2]⟩
              · have hlp : leadingPIU (Except.error e :: rest) = 0 := by
                  simp [leadingPIU, hpiu]
                simp [createRetryLoop, hh, hpiu, hlp]

/-- Claim C4: when the configuration does not set a priority, the
highest-priority computation returns the maximum of the priorities
collected across all `DescribeRules` pages from the non-default rules
(zero when there are none), and every `CreateRule` attempt of the retry
loop passes exactly that value plus one. -/
theorem c4_thm (resps : List (Except Err DescribePage))
    (creates : List (Except Err CreateOut)) (fuel : Nat) (ps : List Int)
    (hps : collectPriorities resps = .ok ps) :
    highestListenerRulePriority resps = .ok (listMaxD ps) ∧
    ∀ q ∈ (createRetryLoop resps creates fuel).2, q = listMaxD ps + 1 := by
  have hmax : highestListenerRulePriority resps = .ok (listMaxD ps) := by
    unfold highestListenerRulePriority
    rw [hps]
    cases ps with
    | nil => rfl
    | cons x xs =>
        simp only [Except.map]
        rw [if_neg (by simp), sortedLast_eq_listMaxD _ (by simp)]
  refine ⟨hmax, ?_⟩
  induction fuel generalizing creates with
  | zero => simp [createRetryLoop]
  | succ n ih =>
      cases creates with
      | nil => simp [createRetryLoop, hmax]
      | cons c rest =>
          cases c with
          | ok out => simp [createRetryLoop, hmax]
          | error e =>
              by_cases hpiu : isAWSErr e errCodePriorityInUseException
              · intro q hq
                simp only [createRetryLoop, hmax, hpiu, if_true] at hq
                rcases List.mem_cons.mp hq with rfl | hq2
                · rfl
                · exact ih rest q hq2
              · simp [createRetryLoop, hmax, hpiu]

theorem mem_splits (l : List Char) :
    ∀ A S : List Char, (A, S) ∈ splits l ↔ l = A ++ S := by
  induction l with
  | nil =>
      intro A S
      simp only [splits, List.mem_singleton, Prod.mk.injEq]
      constructor
      · rintro ⟨rfl, rfl⟩; rfl
      · intro h
        have h2 := List.append_eq_nil.mp h.symm
        exact ⟨h2.1, h2.2⟩
  | cons c rest ih =>
      intro A S
      simp only [splits, List.mem_cons, Prod.mk.injEq, List.mem_map]
      constructor
      · rintro (⟨rfl, rfl⟩ | ⟨⟨A2, S2⟩, hmem, heq⟩)
        · rfl
        · simp only at heq
          obtain ⟨h1, h2⟩ := heq
          subst h1
          subst h2
          simp [(ih A2 S2).mp hmem]
      · intro h
        cases A with
        | nil =>
            refine Or.inl ⟨rfl, ?_⟩
            simpa using h.symm
        | cons a as =>
            simp only [List.cons_append, List.cons.injEq] at h
            obtain ⟨rfl, h2⟩ := h
            exact Or.inr ⟨(as, S), (ih as S).mpr h2, rfl, rfl⟩

theorem lastSlashSplit_none_iff (l : List Char) :
    lastSlashSplit l = none ↔ '/' ∉ l := by
  induction l with
  | nil => simp [lastSlashSplit]
  | cons c rest ih =>
      simp only [lastSlashSplit]
      cases h : lastSlashSplit rest with
      | some p =>
          obtain ⟨b, a⟩ := p
          have hmem : '/' ∈ rest := by
            by_contra hno
            rw [ih.mpr hno] at h
            exact Option.noConfusion h
          simp [List.mem_cons, hmem]
      | none =>
          have hno : '/' ∉ rest := ih.mp h
          by_cases hc : c = '/'
          · simp [hc]
          · simp only [hc, if_false, List.mem_cons, true_iff]
            push_neg
            exact ⟨fun hs => hc hs.symm, hno⟩

theorem lastSlashSplit_sound (l b a : List Char) :
    lastSlashSplit l = some (b, a) → l = b ++ '/' :: a ∧ '/' ∉ a := by
  induction l generalizing b with
  | nil => intro h; exact Option.noConfusion h
  | cons c rest ih =>
      intro h
      simp only [lastSlashSplit] at h
      cases h2 : lastSlashSplit rest with
      | some p =>
          obtain ⟨b2, a2⟩ := p
          rw [h2] at h
          simp only [Option.some.injEq, Prod.mk.injEq] at h
          obtain ⟨hb, ha⟩ := h
          subst hb; subst ha
          obtain ⟨hr, hna⟩ := ih b2 h2
          exact ⟨by simp [hr], hna⟩
      | none =>
          rw [h2] at h
          by_cases hc : c = '/'
          · rw [if_pos hc] at h
            simp only [Option.some.injEq, Prod.mk.injEq] at h
            obtain ⟨hb, ha⟩ := h
            subst hb; subst ha
            exact ⟨by simp [hc], (lastSlashSplit_none_iff rest).mp h2⟩
          · rw [if_neg hc] at h
            exact Option.noConfusion h

theorem lastSlashSplit_complete (b a : List Char) (ha : '/' ∉ a) :
    lastSlashSplit (b ++ '/' :: a) = some (b, a) := by
  induction b with
  | nil =>
      simp only [List.nil_append, lastSlashSplit]
      rw [(lastSlashSplit_none_iff a).mpr ha]
      simp
  | cons c bs ih =>
      simp [lastSlashSplit, ih]

theorem tailMatch_sound (t B C : List Char) :
    tailMatch t = some (B, C) →
      t = B ++ '/' :: C ∧ '/' ∉ C ∧ B ≠ [] ∧ C ≠ [] ∧ '\n' ∉ B := by
  intro h
  simp only [tailMatch] at h
  cases h2 : lastSlashSplit t with
  | some p =>
      obtain ⟨b, a⟩ := p
      rw [h2] at h
      dsimp only at h
      by_cases hg : b ≠ [] ∧ a ≠ [] ∧ '\n' ∉ b
      · rw [if_pos hg] at h
        simp only [Option.some.injEq, Prod.mk.injEq] at h
        obtain ⟨hb, ha⟩ := h
        subst hb; subst ha
        obtain ⟨hr, hna⟩ := lastSlashSplit_sound t _ _ h2
        exact ⟨hr, hna, hg⟩
      · rw [if_neg hg] at h
        exact Option.noConfusion h
  | none => rw [h2] at h; exact Option.noConfusion h

theorem tailMatch_complete (B C : List Char) (hC : '/' ∉ C) (hB : B ≠ []) (hC2 : C ≠ [])
    (hBn : '\n' ∉ B) : tailMatch (B ++ '/' :: C) = some (B, C) := by
  simp only [tailMatch, lastSlashSplit_complete B C hC]
  rw [if_pos ⟨hB, hC2, hBn⟩]

theorem checkCand_sound (A S : List Char) (r : List Char × List Char × List Char)
    (h : checkCand (A, S) = some r) :
    r.1 = A ∧ S = litMid ++ r.2.1 ++ '/' :: r.2.2 ∧
      A ≠ [] ∧ r.2.1 ≠ [] ∧ r.2.2 ≠ [] ∧ '\n' ∉ A ∧ '\n' ∉ r.2.1 ∧ '/' ∉ r.2.2 := by
  simp only [checkCand] at h
  by_cases hg : A ≠ [] ∧ '\n' ∉ A ∧ litMid.isPrefixOf S
  · rw [if_pos hg] at h
    cases h2 : tailMatch (S.drop litMid.length) with
    | some p =>
        obtain ⟨b, c⟩ := p
        rw [h2] at h
        dsimp only at h
        obtain ⟨ht, hnc, hb, hc, hbn⟩ := tailMatch_sound _ _ _ h2
        obtain ⟨hA2, hmid, hpre⟩ := hg
        have hS : S = litMid ++ S.drop litMid.length := by
          have hp : litMid <+: S := List.isPrefixOf_iff_prefix.mp hpre
          have := List.prefix_iff_eq_take.mp hp
          conv_lhs => rw [← List.take_append_drop litMid.length S]
          rw [← this]
        injection h with h3
        subst h3
        exact ⟨rfl, by rw [hS, ht, List.append_assoc], hA2, hb, hc, hmid, hbn, hnc⟩
    | none => rw [h2] at h; exact Option.noConfusion h
  · rw [if_neg hg] at h
    exact Option.noConfusion h

theorem checkCand_complete (A B C : List Char) (hA : A ≠ []) (hAn : '\n' ∉ A)
    (hB : B ≠ []) (hC : C ≠ []) (hBn : '\n' ∉ B) (hCs : '/' ∉ C) :
    checkCand (A, litMid ++ B ++ '/' :: C) = some (A, B, C) := by
  have hpre : litMid.isPrefixOf (litMid ++ B ++ '/' :: C) := by
    apply List.isPrefixOf_iff_prefix.mpr
    rw [List.append_assoc]
    exact List.prefix_append _ _
  have hcond : A ≠ [] ∧ '\n' ∉ A ∧ litMid.isPrefixOf (litMid ++ B ++ '/' :: C) = true :=
    ⟨hA, hAn, hpre⟩
  simp only [checkCand]
  rw [if_pos hcond]
  rw [show (litMid ++ B ++ '/' :: C).drop litMid.length = B ++ '/' :: C by
    rw [List.append_assoc]; exact List.drop_left _ _]
  rw [tailMatch_complete B C hCs hB hC hBn]

theorem findSome?_isSome_of_mem {α β : Type} (l : List α) (f : α → Option β) (x : α)
    (hx : x ∈ l) (hf : (f x).isSome = true) : (l.findSome? f).isSome = true := by
  induction l with
  | nil => simp at hx
  | cons y ys ih =>
      rw [List.findSome?_cons]
      cases hy : f y with
      | some b => simp
      | none =>
          rcases List.mem_cons.mp hx with rfl | hx2
          · rw [hy] at hf; simp at hf
          · exact ih hx2

theorem prefix_restore (l p : List Char) (h : p.isPrefixOf l = true) :
    l = p ++ l.drop p.length := by
  have hp : p <+: l := List.isPrefixOf_iff_prefix.mp h
  have ht := List.prefix_iff_eq_take.mp hp
  conv_lhs => rw [← List.take_append_drop p.length l]
  rw [← ht]

theorem ruleArnSubmatch_sound (l A B C : List Char)
    (h : ruleArnSubmatch l = some (A, B, C)) : RuleArnDecomp l A B C := by
  simp only [ruleArnSubmatch] at h
  by_cases hp : litArn.isPrefixOf l
  · rw [if_pos hp] at h
    obtain ⟨x, hxmem, hxc⟩ := List.exists_of_findSome?_eq_some h
    obtain ⟨A2, S2⟩ := x
    have hsplit : l.drop litArn.length = A2 ++ S2 :=
      (mem_splits _ _ _).mp (List.mem_reverse.mp hxmem)
    obtain ⟨h1, hS, hA2, hb, hc, hmid, hbn, hnc⟩ := checkCand_sound A2 S2 _ hxc
    simp only at h1 hS hb hc hbn hnc
    subst h1
    refine ⟨?_, hA2, hb, hc, hmid, hbn, hnc⟩
    have hl := prefix_restore l litArn hp
    rw [hl, hsplit, hS]
    simp [List.append_assoc]
  · rw [if_neg hp] at h
    exact Option.noConfusion h

theorem ruleArnSubmatch_isSome (l : List Char) (h : RuleArnMatches l) :
    (ruleArnSubmatch l).isSome = true := by
  obtain ⟨A, B, C, hdec⟩ := h
  obtain ⟨heq, hA, hB, hC, hAn, hBn, hCs⟩ := hdec
  have hp : litArn.isPrefixOf l = true := by
    apply List.isPrefixOf_iff_prefix.mpr
    rw [heq]
    simp only [List.append_assoc]
    exact List.prefix_append _ _
  have hdrop : l.drop litArn.length = A ++ (litMid ++ B ++ '/' :: C) := by
    rw [heq]
    simp only [List.append_assoc]
    rw [List.drop_left]
    try simp [List.append_assoc]
  have hmem : (A, litMid ++ B ++ '/' :: C) ∈ (splits (l.drop litArn.length)).reverse := by
    apply List.mem_reverse.mpr
    exact (mem_splits _ _ _).mpr hdrop
  have hcc : (checkCand (A, litMid ++ B ++ '/' :: C)).isSome = true := by
    rw [checkCand_complete A B C hA hAn hB hC hBn hCs]
    rfl
  simp only [ruleArnSubmatch, if_pos hp]
  exact findSome?_isSome_of_mem _ checkCand _ hmem hcc

/-- Claim C2: `lbListenerARNFromRuleARN` returns, for a string matching
the anchored pattern of the source, the concatenation of the two capture
groups, that is the input with `-rule` removed after `listener` and the
final slash-separated segment dropped, as witnessed by a decomposition of
the input; for a string not matching the pattern it returns the empty
string. -/
theorem c2_thm (s : String) :
    (RuleArnMatches s.data →
      ∃ A B C, RuleArnDecomp s.data A B C ∧
        lbListenerARNFromRuleARN s = String.mk (litArn ++ A ++ litListener ++ '/' :: B)) ∧
    (¬ RuleArnMatches s.data → lbListenerARNFromRuleARN s = "") := by
  constructor
  · intro h
    have hs := ruleArnSubmatch_isSome s.data h
    cases hm : ruleArnSubmatch s.data with
    | none => rw [hm] at hs; simp at hs
    | some r =>
        obtain ⟨A, B, C⟩ := r
        refine ⟨A, B, C, ruleArnSubmatch_sound _ _ _ _ hm, ?_⟩
        simp [lbListenerARNFromRuleARN, hm]
  · intro h
    cases hm : ruleArnSubmatch s.data with
    | none => simp [lbListenerARNFromRuleARN, hm]
    | some r =>
        obtain ⟨A, B, C⟩ := r
        exact absurd ⟨A, B, C, ruleArnSubmatch_sound _ _ _ _ hm⟩ h

/-- Witness for C2: the listener-rule ARN of the repository test suite
derives its listener ARN. -/
theorem c2_witness :
    RuleArnMatches ("arn:aws:elasticloadbalancing:us-east-1:012345678912:listener-rule/app/name/0123456789abcdef/abcdef0123456789/456789abcedf1234").data ∧
    (∃ A B C,
      RuleArnDecomp ("arn:aws:elasticloadbalancing:us-east-1:012345678912:listener-rule/app/name/0123456789abcdef/abcdef0123456789/456789abcedf1234").data A B C ∧
      lbListenerARNFromRuleARN "arn:aws:elasticloadbalancing:us-east-1:012345678912:listener-rule/app/name/0123456789abcdef/abcdef0123456789/456789abcedf1234" =
        String.mk (litArn ++ A ++ litListener ++ '/' :: B)) :=
  ⟨⟨("aws:elasticloadbalancing:us-east-1:012345678912").data,
    ("app/name/0123456789abcdef/abcdef0123456789").data,
    ("456789abcedf1234").data, by decide⟩,
   (c2_thm _).1
     ⟨("aws:elasticloadbalancing:us-east-1:012345678912").data,
      ("app/name/0123456789abcdef/abcdef0123456789").data,
      ("456789abcedf1234").data, by decide⟩⟩

/-- Claim C8: the priority validator accepts an integer exactly when it
lies in 1..50000 or equals 99999, and produces exactly one validation
error otherwise. -/
theorem c8_thm (v : Int) :
    (validateAwsLbListenerRulePriority v = [] ↔ (1 ≤ v ∧ v ≤ 50000) ∨ v = 99999) ∧
    (validateAwsLbListenerRulePriority v).length =
      (if (1 ≤ v ∧ v ≤ 50000) ∨ v = 99999 then 0 else 1) := by
  unfold validateAwsLbListenerRulePriority
  by_cases h : v < 1 ∨ (v > 50000 ∧ v ≠ 99999)
  · rw [if_pos h]
    refine ⟨⟨fun h3 => absurd h3 (by simp), fun h3 => absurd h3 (by omega)⟩, ?_⟩
    rw [if_neg (by omega)]
    rfl
  · rw [if_neg h]
    refine ⟨⟨fun _ => by omega, fun _ => rfl⟩, ?_⟩
    rw [if_pos (by omega)]
    rfl

/-- Claim C9: delete returns success exactly when `DeleteRule` succeeded
or failed with the AWS error code `RuleNotFoundException`; any failure
with another code is returned as an error. -/
theorem c9_thm (r : Except Err Unit) :
    resourceAwsLbListenerRuleDelete r = .ok () ↔
      (r = .ok () ∨ ∃ e, r = .error e ∧ isAWSErr e errCodeRuleNotFoundException = true) := by
  cases r with
  | ok u => cases u; simp [resourceAwsLbListenerRuleDelete]
  | error e =>
      by_cases h : isAWSErr e errCodeRuleNotFoundException
      · simp [resourceAwsLbListenerRuleDelete, h]
      · simp [resourceAwsLbListenerRuleDelete, h]

/-- Claim C10: reading a rule priority stores 99999 for the string
`default`, stores the decimal parse of any other parseable string, and
fails exactly when the string is neither `default` nor parseable as an
integer. -/
theorem c10_thm (s : String) (n : Int) :
    readPriorityDecode "default" = .ok 99999 ∧
    (goAtoi s = some n → readPriorityDecode s = .ok n) ∧
    ((∃ m, readPriorityDecode s = .error m) ↔ (s ≠ "default" ∧ goAtoi s = none)) := by
  refine ⟨rfl, ?_, ?_, ?_⟩
  · intro h
    have hs : s ≠ "default" := by
      intro he
      rw [he] at h
      rw [show goAtoi "default" = none by decide] at h
      exact Option.noConfusion h
    unfold readPriorityDecode
    rw [if_neg hs, h]
  · rintro ⟨m, hm⟩
    unfold readPriorityDecode at hm
    by_cases hs : s = "default"
    · rw [if_pos hs] at hm
      exact Except.noConfusion hm
    · rw [if_neg hs] at hm
      cases hg : goAtoi s with
      | some k =>
          rw [hg] at hm
          exact Except.noConfusion hm
      | none => exact ⟨hs, rfl⟩
  · rintro ⟨hs, hg⟩
    refine ⟨"Cannot convert rule priority to int", ?_⟩
    unfold readPriorityDecode
    rw [if_neg hs, hg]

/-- Witness for C10: the string `123` decodes to the integer 123. -/
theorem c10_witness : goAtoi "123" = some 123 ∧ readPriorityDecode "123" = .ok 123 :=
  ⟨by decide, (c10_thm "123" 123).2.1 (by decide)⟩

/-- Witness for C1: the round trip on a concrete host-header condition. -/
theorem c1_witness :
    RoundTripPre sampleHostHeaderCondition ∧
    ∃ cOut, lbListenerRuleConditions [flattenCondition sampleHostHeaderCondition] = .ok [cOut] ∧
      cOut.field = sampleHostHeaderCondition.field ∧
      SameSelectedValues sampleHostHeaderCondition cOut :=
  ⟨Or.inl ⟨rfl, ⟨[some "example.com"]⟩, rfl, by decide⟩,
   c1_roundtrip _ (Or.inl ⟨rfl, ⟨[some "example.com"]⟩, rfl, by decide⟩)⟩

/-- Witness for C3 (amended): one `PriorityInUseException` failure
followed by a success gives exactly two attempts. -/
theorem c3_witness :
    highestListenerRulePriority sampleDescribeResponses = .ok 3 ∧
    leadingPIU sampleCreateResponses < 5 ∧
    leadingPIU sampleCreateResponses < sampleCreateResponses.length ∧
    (sampleCreateResponses[leadingPIU sampleCreateResponses]? =
        some ((createRetryLoop sampleDescribeResponses sampleCreateResponses 5).1) ∧
      ((createRetryLoop sampleDescribeResponses sampleCreateResponses 5).2).length =
        leadingPIU sampleCreateResponses + 1) :=
  ⟨rfl, by decide, by decide,
   c3_amended_thm sampleDescribeResponses sampleCreateResponses 5 3
     rfl (by decide) (by decide)⟩

/-- Witness for C4: on a concrete page with priorities 3 and default,
every attempt sends priority 4. -/
theorem c4_witness :
    collectPriorities sampleDescribeResponses = .ok [3] ∧
    (highestListenerRulePriority sampleDescribeResponses = .ok (listMaxD [3]) ∧
      ∀ q ∈ (createRetryLoop sampleDescribeResponses sampleCreateResponses 5).2,
        q = listMaxD [3] + 1) :=
  ⟨rfl, c4_thm sampleDescribeResponses sampleCreateResponses 5 [3] rfl⟩

/-- Witness for C7: a two-condition list with well-formed blocks expands
with the stated error characterization. -/
theorem c7_witness :
    (∀ m ∈ sampleConditionList, noNilHeads m = true) ∧
    (((∃ e, lbListenerRuleConditions sampleConditionList = .error e) ↔
        ∃ m ∈ sampleConditionList, BadCondition m) ∧
      (∀ res, lbListenerRuleConditions sampleConditionList = .ok res →
        res.length = sampleConditionList.length)) :=
  ⟨by decide, c7_expand_raises_iff sampleConditionList (by decide)⟩

/-- Witness for C6: concrete value lists for both representations. -/
theorem c6_witness :
    lbListenerRuleConditionSetHash (fun t => (t.length : Int)) (hostHeaderOldStyle ["a"]) =
      lbListenerRuleConditionSetHash (fun t => (t.length : Int)) (hostHeaderNewStyle ["a"] ["b"]) ∧
    lbListenerRuleConditionSetHash (fun t => (t.length : Int)) (pathPatternOldStyle ["a"]) =
      lbListenerRuleConditionSetHash (fun t => (t.length : Int)) (pathPatternNewStyle ["a"] ["b"]) :=
  c6_deprecated_values_same_hash (fun t => (t.length : Int)) ["a"] ["b"]

/-- Witness for C8: the validator at the default-rule priority 99999. -/
theorem c8_witness :
    (validateAwsLbListenerRulePriority 99999 = [] ↔ (1 ≤ (99999 : Int) ∧ (99999 : Int) ≤ 50000) ∨ (99999 : Int) = 99999) ∧
    (validateAwsLbListenerRulePriority 99999).length =
      (if (1 ≤ (99999 : Int) ∧ (99999 : Int) ≤ 50000) ∨ (99999 : Int) = 99999 then 0 else 1) :=
  c8_thm 99999

/-- Witness for C9: delete after a RuleNotFoundException failure. -/
theorem c9_witness :
    resourceAwsLbListenerRuleDelete (.error (.aws "RuleNotFoundException")) = .ok () ↔
      ((.error (.aws "RuleNotFoundException") : Except Err Unit) = .ok () ∨
        ∃ e, (.error (.aws "RuleNotFoundException") : Except Err Unit) = .error e ∧
          isAWSErr e errCodeRuleNotFoundException = true) :=
  c9_thm (.error (.aws "RuleNotFoundException"))

end AwsPresence
